import Mathlib

/-!
# Verification of `yolo` (devcontainer + git worktree launcher)

Shallow embedding of the pure logic of `yolo.py` and proofs about it.
Python strings are modelled as Lean `String` (lists of characters);
filesystem paths are modelled as lists of path components; the filesystem
is modelled as an association list from paths to nodes; subprocess output
is passed in as an explicit argument.
-/

namespace Yolo

/-! ## Python string primitives, modelled on lists of characters -/

/-- Python `s.startswith(pre)` on character lists. -/
def pyStartsWith : List Char → List Char → Bool
  | [], _ => true
  | _ :: _, [] => false
  | c :: cs, d :: ds => c = d && pyStartsWith cs ds

/-- Python `s.replace(pat, repl)` on character lists: replace every
non-overlapping occurrence of `pat`, scanning left to right.  An empty
pattern is treated as matching nowhere (the source only uses non-empty
patterns). -/
def pyReplace (pat repl : List Char) : List Char → List Char
  | [] => []
  | c :: rest =>
    if h : pat ≠ [] ∧ pyStartsWith pat (c :: rest) then
      repl ++ pyReplace pat repl ((c :: rest).drop pat.length)
    else
      c :: pyReplace pat repl rest
termination_by l => l.length
decreasing_by
  · simp only [List.length_drop, List.length_cons]
    have : 0 < pat.length := List.length_pos.mpr h.1
    omega
  · simp

/-- Python `s.rstrip(c)` for a single strip character, on character lists:
remove every trailing occurrence of `c`. -/
def pyRstrip (strip : Char) (l : List Char) : List Char :=
  (l.reverse.dropWhile (fun c => c = strip)).reverse

/-- Helper for `pySplitOnChar`: `acc` holds the current field reversed. -/
def pySplitOnCharAux (sep : Char) : List Char → List Char → List (List Char)
  | [], acc => [acc.reverse]
  | c :: rest, acc =>
    if c = sep then acc.reverse :: pySplitOnCharAux sep rest []
    else pySplitOnCharAux sep rest (c :: acc)

/-- Python `s.split(sep)` for a single-character separator:
`''.split(sep) = ['']`, and a separator at either end yields an empty
field there. -/
def pySplitOnChar (sep : Char) (l : List Char) : List (List Char) :=
  pySplitOnCharAux sep l []

/-- The ASCII whitespace characters stripped by Python `str.strip()`. -/
def pyIsSpace (c : Char) : Bool :=
  c = ' ' || c = '\t' || c = '\n' || c = '\r' || c = '\x0b' || c = '\x0c'

/-- Python `s.strip()`: remove leading and trailing whitespace. -/
def pyStrip (l : List Char) : List Char :=
  ((l.dropWhile pyIsSpace).reverse.dropWhile pyIsSpace).reverse

/-- Python `str.lower()` (ASCII case only, which is all the source needs). -/
def pyLower (l : List Char) : List Char := l.map Char.toLower

/-- Version of `pyLower` packaged on `String`. -/
def pyLowerStr (s : String) : String := ⟨pyLower s.toList⟩

/-! ## Path model

An (absolute, resolved) filesystem path is modelled as the list of its
components under the root; `[]` is the filesystem root `/`. -/

/-- Components of a path. -/
abbrev AbsPath := List String

/-- Model of `pathlib` `p.name`: last component, `""` for the root. -/
def pathName (p : AbsPath) : String := (p.getLast?).getD ""

/-- Model of `pathlib` `p.parent`: drop the last component; the root's parent is
itself. -/
def pathParent (p : AbsPath) : AbsPath := p.dropLast

/-- Model of `pathlib` `PurePath(s).name` for a POSIX path string: split on `/`,
discard empty and `.` components, take the last (or `""`). -/
def posixName (l : List Char) : List Char :=
  (((pySplitOnChar '/' l).filter (fun part => part ≠ [] && part ≠ ['.'])).getLast?).getD []

/-! ## `get_container_name` (yolo.py lines 298-304)

```python
def get_container_name(project_path, worktree_name):
    project_name = Path(project_path.rstrip('/')).name.lower()
    if worktree_name:
        return f'{project_name}-{worktree_name}'
    return project_name
```
`if worktree_name:` is Python truthiness: `None` and the empty string both
fall through to the bare project name. -/
def get_container_name (project_path : String) (worktree_name : Option String) : String :=
  let project_name : String :=
    ⟨pyLower (posixName (pyRstrip '/' project_path.toList))⟩
  match worktree_name with
  | some wt => if wt ≠ "" then project_name ++ "-" ++ wt else project_name
  | none => project_name

/-- Specification phrase for C3: "the lower-cased final path component with
any trailing slash ignored". -/
def specProjectName (path : String) : String :=
  ⟨pyLower (posixName (pyRstrip '/' path.toList))⟩

lemma pyRstrip_append_strip (strip : Char) (l : List Char) :
    pyRstrip strip (l ++ [strip]) = pyRstrip strip l := by
  simp [pyRstrip, List.dropWhile]

lemma get_container_name_append_slash (path : String) (w : Option String) :
    get_container_name (path ++ "/") w = get_container_name path w := by
  have h : pyRstrip '/' (path ++ "/").toList = pyRstrip '/' path.toList := by
    have : (path ++ "/").toList = path.toList ++ ['/'] := by
      simp [String.toList, String.data_append]
    rw [this, pyRstrip_append_strip]
  simp only [get_container_name, h]

/-- C3 (counterexample): the claim quantifies over every supplied worktree
name, but for the empty string `get_container_name` returns the bare
project name (Python truthiness: `if worktree_name:`), not the project
name followed by a hyphen. -/
theorem C3_container_name_counterexample :
    get_container_name "/home/user/myproject" (some "") = "myproject" ∧
    get_container_name "/home/user/myproject" (some "") ≠
      get_container_name "/home/user/myproject" none ++ "-" ++ "" := by
  constructor
  · rfl
  · decide

/-- C3 (amended): `get_container_name path none` is the lower-cased final
path component with any trailing slash ignored, a trailing slash on the
input is ignored, and for every nonempty supplied worktree name the result
is that value joined to the worktree name by a hyphen. -/
theorem C3_container_name (path wt : String) (hwt : wt ≠ "") :
    get_container_name path none = specProjectName path ∧
    get_container_name (path ++ "/") none = get_container_name path none ∧
    get_container_name path (some wt) = get_container_name path none ++ "-" ++ wt := by
  refine ⟨rfl, get_container_name_append_slash path none, ?_⟩
  simp [get_container_name, hwt]

/-- C3 witness: instantiates `C3_container_name` at a concrete path and
worktree name. -/
theorem C3_container_name_witness :
    get_container_name "/dev/MyApp" none = specProjectName "/dev/MyApp" ∧
    get_container_name ("/dev/MyApp" ++ "/") none = get_container_name "/dev/MyApp" none ∧
    get_container_name "/dev/MyApp" (some "feature-x") =
      get_container_name "/dev/MyApp" none ++ "-" ++ "feature-x" :=
  C3_container_name "/dev/MyApp" "feature-x" (by decide)

/-! ## `find_git_root` (yolo.py lines 177-196)

```python
current = Path(start_path).resolve()
while current != current.parent:
    if (current / '.git').exists():
        return current
    current = current.parent
if (current / '.git').exists():
    return current
return None
```
The starting path is modelled as an already-resolved component list; the
filesystem is modelled by the predicate `hasGit p` = "`p / '.git'`
exists".  `current != current.parent` is exactly `p ≠ []` in the
component model. -/
def find_git_root (hasGit : AbsPath → Bool) (p : AbsPath) : Option AbsPath :=
  if hp : p = [] then
    if hasGit [] then some [] else none
  else
    if hasGit p then some p else find_git_root hasGit p.dropLast
termination_by p.length
decreasing_by
  simp only [List.length_dropLast]
  exact Nat.sub_lt (List.length_pos.mpr hp) Nat.one_pos

lemma dropLast_isPre (l : AbsPath) : l.dropLast <+: l := List.dropLast_prefix l

/-- The ancestors-or-self of a path (including the root) are exactly its
prefixes; for a nonempty path they are the path itself plus the
ancestors-or-self of its parent. -/
lemma prefix_iff_eq_or_prefix_dropLast {p l : AbsPath} (hp : p ≠ []) :
    l <+: p ↔ l = p ∨ l <+: p.dropLast := by
  constructor
  · intro h
    rcases Nat.lt_or_ge l.length p.length with hlt | hge
    · right
      rw [List.prefix_iff_eq_take] at h ⊢
      rw [List.dropLast_eq_take, List.take_take]
      have hle : l.length ≤ p.length - 1 := by omega
      rw [Nat.min_eq_left hle]
      exact h
    · left
      exact h.eq_of_length (Nat.le_antisymm h.length_le hge)
  · rintro (rfl | h)
    · exact List.prefix_rfl
    · exact h.trans (dropLast_isPre p)

/-- C8: `find_git_root` returns a directory `d` only when `d` carries the
repository marker, `d` is an ancestor-or-self of the start (a prefix of
its component list, the filesystem root `[]` included), and every strictly
nearer ancestor lacks the marker; and it returns `none` exactly when no
ancestor-or-self of the start, the root included, carries the marker. -/
theorem C8_find_git_root (hasGit : AbsPath → Bool) (p : AbsPath) :
    (∀ d, find_git_root hasGit p = some d →
      hasGit d = true ∧ d <+: p ∧
        ∀ l, l <+: p → d.length < l.length → hasGit l = false)
    ∧ (find_git_root hasGit p = none ↔ ∀ l, l <+: p → hasGit l = false) := by
  have main : ∀ n (p : AbsPath), p.length = n →
      (∀ d, find_git_root hasGit p = some d →
        hasGit d = true ∧ d <+: p ∧
          ∀ l, l <+: p → d.length < l.length → hasGit l = false)
      ∧ (find_git_root hasGit p = none ↔ ∀ l, l <+: p → hasGit l = false) := by
    intro n
    induction n using Nat.strong_induction_on with
    | _ n ih =>
      intro p hlen
      by_cases h0 : p = []
      · subst h0
        rw [find_git_root]
        simp only [dif_pos rfl]
        by_cases hg : hasGit [] = true
        · rw [if_pos hg]
          refine ⟨?_, ?_⟩
          · intro d hd
            obtain rfl : ([] : AbsPath) = d := Option.some.inj hd
            refine ⟨hg, List.prefix_rfl, ?_⟩
            intro l hl hlen'
            rw [List.prefix_nil] at hl
            subst hl
            exact absurd hlen' (by simp)
          · constructor
            · intro h; exact absurd h (by simp)
            · intro h
              exact absurd (h [] List.prefix_rfl) (by simp [hg])
        · rw [if_neg hg]
          refine ⟨by intro d hd; exact absurd hd (by simp), ?_⟩
          constructor
          · intro _ l hl
            rw [List.prefix_nil] at hl
            subst hl
            exact Bool.not_eq_true _ ▸ Bool.of_not_eq_true hg
          · intro _; rfl
      · have hdlt : p.dropLast.length < n := by
          subst hlen
          simp only [List.length_dropLast]
          exact Nat.sub_lt (List.length_pos.mpr h0) Nat.one_pos
        obtain ⟨IH1, IH2⟩ := ih p.dropLast.length hdlt p.dropLast rfl
        rw [find_git_root, dif_neg h0]
        by_cases hg : hasGit p = true
        · rw [if_pos hg]
          refine ⟨?_, ?_⟩
          · intro d hd
            obtain rfl : p = d := Option.some.inj hd
            refine ⟨hg, List.prefix_rfl, ?_⟩
            intro l hl hlen'
            exact absurd hl.length_le (by omega)
          · constructor
            · intro h; exact absurd h (by simp)
            · intro h
              exact absurd (h p List.prefix_rfl) (by simp [hg])
        · have hg' : hasGit p = false := Bool.of_not_eq_true hg
          rw [if_neg hg]
          refine ⟨?_, ?_⟩
          · intro d hd
            obtain ⟨h1, h2, h3⟩ := IH1 d hd
            refine ⟨h1, h2.trans (dropLast_isPre p), ?_⟩
            intro l hl hlen'
            rcases (prefix_iff_eq_or_prefix_dropLast h0).mp hl with rfl | hl'
            · exact hg'
            · exact h3 l hl' hlen'
          · rw [IH2]
            constructor
            · intro h l hl
              rcases (prefix_iff_eq_or_prefix_dropLast h0).mp hl with rfl | hl'
              · exact hg'
              · exact h l hl'
            · intro h l hl
              exact h l (hl.trans (dropLast_isPre p))
  exact main p.length p rfl

/-- C8 witness: instantiates `C8_find_git_root` at a marker predicate true
only at `["home", "u", "proj"]` and discharges the `some`-direction
hypothesis at that concrete input. -/
theorem C8_find_git_root_witness :
    find_git_root (fun q => q = ["home", "u", "proj"]) ["home", "u", "proj", "sub"] =
      some ["home", "u", "proj"] ∧
    ["home", "u", "proj"] <+: ["home", "u", "proj", "sub"] := by
  have hfind : find_git_root (fun q => q = ["home", "u", "proj"])
      ["home", "u", "proj", "sub"] = some ["home", "u", "proj"] := by
    rw [find_git_root]
    norm_num
    rw [find_git_root]
    simp
  exact ⟨hfind, ((C8_find_git_root (fun q => q = ["home", "u", "proj"])
    ["home", "u", "proj", "sub"]).1 ["home", "u", "proj"] hfind).2.1⟩

/-! ## `load_config` (yolo.py lines 25-59)

A Python dict with string keys and values is modelled as an association
list with unique keys; lookup takes the first matching entry. -/

/-- A configuration mapping (Python dict of strings). -/
abbrev Cfg := List (String × String)

/-- Dict lookup: the value of the first entry with the given key. -/
def dictGet : Cfg → String → Option String
  | [], _ => none
  | (k, v) :: rest, key => if k = key then some v else dictGet rest key

/-- Python `base.update(upd)`: existing keys keep their position and take
the updating value; keys new to `base` are appended in `upd` order. -/
def dictUpdate (base upd : Cfg) : Cfg :=
  (base.map fun kv => (kv.1, (dictGet upd kv.1).getD kv.2)) ++
    upd.filter (fun kv => (dictGet base kv.1).isNone)

/-- Constant `DEFAULT_CONFIG` (yolo.py lines 25-29). -/
def DEFAULT_CONFIG : Cfg :=
  [("base_image", "localhost/emacs-gui:latest"),
   ("pass_path_anthropic", "api/llm/anthropic"),
   ("pass_path_openai", "api/llm/openai")]

/-- Function `load_config`: start from a copy of the defaults, update with the
global config file's mapping when that file exists, then with the project
config file's mapping when that file exists.  A missing file is modelled
as `none` and is skipped. -/
def load_config (global_cfg project_cfg : Option Cfg) : Cfg :=
  let config := DEFAULT_CONFIG
  let config := match global_cfg with
    | some g => dictUpdate config g
    | none => config
  let config := match project_cfg with
    | some pr => dictUpdate config pr
    | none => config
  config

/-- Lookup in an optional (possibly missing) config file. -/
def optGet (o : Option Cfg) (k : String) : Option String :=
  match o with
  | some c => dictGet c k
  | none => none

lemma dictGet_append (xs ys : Cfg) (k : String) :
    dictGet (xs ++ ys) k = (dictGet xs k).or (dictGet ys k) := by
  induction xs with
  | nil => simp [dictGet]
  | cons kv rest ih =>
    obtain ⟨k', v'⟩ := kv
    by_cases h : k' = k
    · simp [dictGet, h]
    · simp [dictGet, h, ih]

lemma dictGet_map_val (b u : Cfg) (k : String) :
    dictGet (b.map fun kv => (kv.1, (dictGet u kv.1).getD kv.2)) k =
      (dictGet b k).map (fun v => (dictGet u k).getD v) := by
  induction b with
  | nil => simp [dictGet]
  | cons kv rest ih =>
    obtain ⟨k', v'⟩ := kv
    by_cases h : k' = k
    · subst h; simp [dictGet]
    · simp [dictGet, h, ih]

lemma dictGet_filter (u : Cfg) (pred : String × String → Bool) (k : String)
    (h : ∀ v, (k, v) ∈ u → pred (k, v) = true) :
    dictGet (u.filter pred) k = dictGet u k := by
  induction u with
  | nil => simp
  | cons kv rest ih =>
    obtain ⟨k', v'⟩ := kv
    have ih' := ih (fun v hv => h v (List.mem_cons_of_mem _ hv))
    by_cases hk : k' = k
    · subst hk
      have hpred : pred (k', v') = true := h v' (List.mem_cons_self _ _)
      simp [List.filter_cons, hpred, dictGet]
    · by_cases hpred : pred (k', v') = true
      · simp [List.filter_cons, hpred, dictGet, hk, ih']
      · simp only [List.filter_cons, Bool.not_eq_true] at hpred ⊢
        rw [hpred]
        simp [dictGet, hk, ih']

/-- The update of one dict by another, per key: the updating dict wins
where it has the key, the base value survives otherwise. -/
lemma dictGet_dictUpdate (b u : Cfg) (k : String) :
    dictGet (dictUpdate b u) k = (dictGet u k).or (dictGet b k) := by
  unfold dictUpdate
  rw [dictGet_append, dictGet_map_val]
  cases hb : dictGet b k with
  | some v =>
    cases hu : dictGet u k <;> simp [hu]
  | none =>
    rw [dictGet_filter u _ k ?_]
    · simp
    · intro v hv
      simp [hb]

lemma load_config_get (g p : Option Cfg) (k : String) :
    dictGet (load_config g p) k =
      (optGet p k).or ((optGet g k).or (dictGet DEFAULT_CONFIG k)) := by
  cases g <;> cases p <;>
    simp [load_config, optGet, dictGet_dictUpdate, Option.or_assoc]

/-- C6: per key, the project file's value wins when present; a key absent
from the project file but present in the global file takes the global
value; a key present in neither file keeps its built-in default; and a
missing (skipped) global or project file behaves exactly like an empty
layer — in particular with both files missing the result is the built-in
default config itself. -/
theorem C6_load_config (g p : Option Cfg) (k : String) :
    (∀ v, optGet p k = some v → dictGet (load_config g p) k = some v) ∧
    (optGet p k = none → ∀ v, optGet g k = some v →
      dictGet (load_config g p) k = some v) ∧
    (optGet p k = none → optGet g k = none →
      dictGet (load_config g p) k = dictGet DEFAULT_CONFIG k) ∧
    load_config none none = DEFAULT_CONFIG := by
  refine ⟨?_, ?_, ?_, rfl⟩
  · intro v hv
    rw [load_config_get, hv]
    rfl
  · intro hp v hv
    rw [load_config_get, hp, hv]
    rfl
  · intro hp hg
    rw [load_config_get, hp, hg]
    rfl

/-- C6 witness: instantiates `C6_load_config` with a global file carrying
`base_image` and a project file carrying `pass_path_openai`, discharging
each hypothesis concretely: the project key wins, the global-only key is
not shadowed, and the untouched key keeps its default. -/
theorem C6_load_config_witness :
    dictGet (load_config (some [("base_image", "img:g")])
      (some [("pass_path_openai", "proj/openai")])) "pass_path_openai" =
        some "proj/openai" ∧
    dictGet (load_config (some [("base_image", "img:g")])
      (some [("pass_path_openai", "proj/openai")])) "base_image" = some "img:g" ∧
    dictGet (load_config (some [("base_image", "img:g")])
      (some [("pass_path_openai", "proj/openai")])) "pass_path_anthropic" =
        dictGet DEFAULT_CONFIG "pass_path_anthropic" := by
  refine ⟨?_, ?_, ?_⟩
  · exact (C6_load_config (some [("base_image", "img:g")])
      (some [("pass_path_openai", "proj/openai")]) "pass_path_openai").1
      "proj/openai" (by decide)
  · exact ((C6_load_config (some [("base_image", "img:g")])
      (some [("pass_path_openai", "proj/openai")]) "base_image").2.1)
      (by decide) "img:g" (by decide)
  · exact ((C6_load_config (some [("base_image", "img:g")])
      (some [("pass_path_openai", "proj/openai")]) "pass_path_anthropic").2.2.1)
      (by decide) (by decide)

/-! ## `find_stopped_containers_for_project` (yolo.py lines 612-635)

```python
for name, folder, state in all_containers:
    if state != 'running':
        folder_path = Path(folder)
        if folder_path == git_root or \
           folder_path.parent.name == f'{project_name}-worktrees':
            stopped.append((name, folder))
```
The container listing produced by `list_all_devcontainers` (a subprocess
query, yolo.py lines 467-497) is passed in explicitly; container folders
are modelled as resolved component lists.  When no container runtime is
available both functions return `[]`, which coincides with running this
filter on the empty listing. -/
def find_stopped_containers_for_project (git_root : AbsPath) :
    List (String × AbsPath × String) → List (String × AbsPath)
  | [] => []
  | (name, folder, state) :: rest =>
    if state ≠ "running" ∧
        (folder = git_root ∨
          pathName (pathParent folder) = pathName git_root ++ "-worktrees") then
      (name, folder) :: find_stopped_containers_for_project git_root rest
    else
      find_stopped_containers_for_project git_root rest

/-- The `<project>-worktrees` directory that is a sibling of the git root,
as the spec describes it. -/
def spec_sibling_worktrees_dir (git_root : AbsPath) : AbsPath :=
  pathParent git_root ++ [pathName git_root ++ "-worktrees"]

/-- C2 (counterexample): the code only compares the *name* of the folder's
parent against `<project>-worktrees`, not its full path, so a stopped
container under `/other/proj-worktrees/x` is included for the project at
`/home/u/proj` even though that folder is not a child of the sibling
worktrees directory `/home/u/proj-worktrees` — refuting "containers whose
folder lies elsewhere are never included". -/
theorem C2_find_stopped_containers_counterexample :
    find_stopped_containers_for_project ["home", "u", "proj"]
        [("c1", ["other", "proj-worktrees", "x"], "exited")] =
      [("c1", ["other", "proj-worktrees", "x"])] ∧
    ¬ (["other", "proj-worktrees", "x"] = ["home", "u", "proj"] ∨
        pathParent ["other", "proj-worktrees", "x"] =
          spec_sibling_worktrees_dir ["home", "u", "proj"]) := by
  constructor
  · rfl
  · decide

/-- C2 (amended): `find_stopped_containers_for_project` returns exactly the
(name, folder) pairs of listed containers whose state is not `"running"`
and whose workspace folder either equals the git root or has a parent
directory *named* `<project>-worktrees`, wherever that parent lies. -/
theorem C2_find_stopped_containers (git_root : AbsPath)
    (cs : List (String × AbsPath × String)) (name : String) (folder : AbsPath) :
    (name, folder) ∈ find_stopped_containers_for_project git_root cs ↔
      ∃ state, (name, folder, state) ∈ cs ∧ state ≠ "running" ∧
        (folder = git_root ∨
          pathName (pathParent folder) = pathName git_root ++ "-worktrees") := by
  induction cs with
  | nil => simp [find_stopped_containers_for_project]
  | cons c rest ih =>
    obtain ⟨n, f, s⟩ := c
    by_cases hc : s ≠ "running" ∧
        (f = git_root ∨ pathName (pathParent f) = pathName git_root ++ "-worktrees")
    · rw [find_stopped_containers_for_project, if_pos hc]
      constructor
      · intro hmem
        rcases List.mem_cons.mp hmem with heq | hmem'
        · obtain ⟨rfl, rfl⟩ := Prod.mk.inj heq
          exact ⟨s, List.mem_cons_self _ _, hc⟩
        · obtain ⟨st, hst, hrest⟩ := ih.mp hmem'
          exact ⟨st, List.mem_cons_of_mem _ hst, hrest⟩
      · rintro ⟨st, hst, hcond⟩
        rcases List.mem_cons.mp hst with heq | hmem'
        · obtain ⟨rfl, rfl, rfl⟩ := Prod.mk.inj heq |>.imp id (Prod.mk.inj ·)
          exact List.mem_cons_self _ _
        · exact List.mem_cons_of_mem _ (ih.mpr ⟨st, hmem', hcond⟩)
    · rw [find_stopped_containers_for_project, if_neg hc]
      rw [ih]
      constructor
      · rintro ⟨st, hst, hcond⟩
        exact ⟨st, List.mem_cons_of_mem _ hst, hcond⟩
      · rintro ⟨st, hst, hcond⟩
        rcases List.mem_cons.mp hst with heq | hmem'
        · obtain ⟨rfl, rfl, rfl⟩ := Prod.mk.inj heq |>.imp id (Prod.mk.inj ·)
          exact absurd ⟨hcond.1, hcond.2⟩ hc
        · exact ⟨st, hmem', hcond⟩

/-! ## `parse_args` (yolo.py lines 101-168)

The argument parser defines `--tree` (optional value), `--create`
(required value), and the boolean flags `--new`, `--sync`, `--list`,
`--all`/`-a`, `--stop`, `--prune`, `--attach`, plus argparse's automatic
`-h`/`--help`.  No other option is defined; argparse rejects unknown
options with an "unrecognized arguments" error (modelled as `false`).
Option-name abbreviation is not modelled; the claim's flags are all full
names that abbreviate no defined option. -/
def storeTrueFlags : List String :=
  ["--new", "--sync", "--list", "--all", "-a", "--stop", "--prune", "--attach",
   "-h", "--help"]

/-- Whether `parse_args` accepts the argument list (no unrecognized
option, required values present). -/
def parseArgsOk : List String → Bool
  | [] => true
  | a :: rest =>
    if a ∈ storeTrueFlags then parseArgsOk rest
    else if a = "--create" then
      match rest with
      | v :: rest' => if pyStartsWith "-".toList v.toList then false
                      else parseArgsOk rest'
      | [] => false
    else if a = "--tree" then
      match rest with
      | v :: rest' => if pyStartsWith "-".toList v.toList then parseArgsOk (v :: rest')
                      else parseArgsOk rest'
      | [] => true
    else false

/-- C9: the parser accepts every flag the code defines — `--tree` (with
and without a NAME), `--create NAME`, `--new`, `--sync`, `--list`,
`--all`/`-a`, `--stop`, `--prune`, `--attach` — but rejects `--detach`,
`-d`, `--from BRANCH`, `--verbose` and `-v`, which the spec lists and the
test suite exercises (test_yolo.py `TestDetachMode`, `TestFromBranch`,
`TestVerboseMode`) yet `parse_args` never defines. -/
theorem C9_parse_args_flags :
    parseArgsOk ["--tree"] = true ∧
    parseArgsOk ["--tree", "feature-x"] = true ∧
    parseArgsOk ["--create", "myproject"] = true ∧
    parseArgsOk ["--new"] = true ∧
    parseArgsOk ["--sync"] = true ∧
    parseArgsOk ["--list"] = true ∧
    parseArgsOk ["--all"] = true ∧
    parseArgsOk ["-a"] = true ∧
    parseArgsOk ["--stop"] = true ∧
    parseArgsOk ["--prune"] = true ∧
    parseArgsOk ["--attach"] = true ∧
    parseArgsOk ["--detach"] = false ∧
    parseArgsOk ["-d"] = false ∧
    parseArgsOk ["--detach", "--tree", "test"] = false ∧
    parseArgsOk ["--tree", "test", "--from", "main"] = false ∧
    parseArgsOk ["--verbose"] = false ∧
    parseArgsOk ["-v"] = false := by
  decide

/-! ## `run_prune_mode` (yolo.py lines 680-733)

The mode's effect is modelled as the list of removal actions it attempts;
the stopped-container and stale-worktree lists (computed by subprocess
queries) and the outcome of the interactive `input()` prompt are explicit
arguments.  `except (EOFError, KeyboardInterrupt): return` is the
`eofOrInterrupt` outcome. -/
inductive PruneAction
  | removeContainer (name : String)
  | removeWorktree (path : AbsPath)
deriving DecidableEq

inductive PromptOutcome
  | response (s : String)
  | eofOrInterrupt
deriving DecidableEq

/-- The removals attempted by `run_prune_mode`: none when there is nothing
to prune, none when the prompt raises end-of-input or interrupt, none when
the lower-cased response is not "y"; otherwise every stopped container is
removed, then every stale worktree. -/
def run_prune_mode (stopped_containers : List (String × AbsPath))
    (stale_worktrees : List (AbsPath × String))
    (prompt : PromptOutcome) : List PruneAction :=
  if stopped_containers = [] ∧ stale_worktrees = [] then []
  else
    match prompt with
    | .eofOrInterrupt => []
    | .response r =>
      if pyLowerStr r ≠ "y" then []
      else
        (stopped_containers.map fun c => .removeContainer c.1) ++
          (stale_worktrees.map fun w => .removeWorktree w.1)

/-- C7: with at least one stopped container or stale worktree found, if
the confirmation prompt raises end-of-input or interrupt, or the response
does not lower-case to "y", prune removes nothing; and on an affirmative
response it removes exactly the listed containers and worktrees. -/
theorem C7_prune_confirmation (stopped : List (String × AbsPath))
    (stale : List (AbsPath × String)) (prompt : PromptOutcome)
    (hfound : stopped ≠ [] ∨ stale ≠ [])
    (hdecline : prompt = .eofOrInterrupt ∨
      ∃ r, prompt = .response r ∧ pyLowerStr r ≠ "y") :
    run_prune_mode stopped stale prompt = [] ∧
    run_prune_mode stopped stale (.response "y") =
      (stopped.map fun c => .removeContainer c.1) ++
        (stale.map fun w => .removeWorktree w.1) := by
  have hne : ¬ (stopped = [] ∧ stale = []) := by
    rintro ⟨h1, h2⟩
    rcases hfound with h | h <;> exact h (by assumption)
  constructor
  · rcases hdecline with rfl | ⟨r, rfl, hr⟩
    · simp [run_prune_mode, hne]
    · simp [run_prune_mode, hne, hr]
  · have hy : pyLowerStr "y" = "y" := rfl
    simp [run_prune_mode, hne, hy]

/-- C7 witness: instantiates `C7_prune_confirmation` with one stopped
container and a declined prompt. -/
theorem C7_prune_confirmation_witness :
    run_prune_mode [("proj-wt", ["home", "u", "proj"])] [] (.response "N") = [] ∧
    run_prune_mode [("proj-wt", ["home", "u", "proj"])] [] (.response "y") =
      ([("proj-wt", ["home", "u", "proj"])].map
          fun c => PruneAction.removeContainer c.1) ++
        (([] : List (AbsPath × String)).map fun w => PruneAction.removeWorktree w.1) :=
  C7_prune_confirmation [("proj-wt", ["home", "u", "proj"])] [] (.response "N")
    (Or.inl (by decide))
    (Or.inr ⟨"N", rfl, by decide⟩)

/-! ## Devcontainer scaffolding (yolo.py lines 63-98, 206-259)

The filesystem is modelled as an association list from absolute paths to
nodes (directory or file-with-content); lookup takes the most recent
entry.  Template literals are transcribed from the source (braces written
with their character codes). -/

inductive FsNode
  | dir
  | file (content : String)
deriving DecidableEq

/-- A filesystem snapshot. -/
abbrev FS := List (AbsPath × FsNode)

def fsLookup : FS → AbsPath → Option FsNode
  | [], _ => none
  | (q, n) :: rest, p => if q = p then some n else fsLookup rest p

/-- Model of `Path.exists()`: some node (file or directory) is present. -/
def fsExists (fs : FS) (p : AbsPath) : Bool := (fsLookup fs p).isSome

def fsErase : FS → AbsPath → FS
  | [], _ => []
  | (q, n) :: rest, p => if q = p then fsErase rest p else (q, n) :: fsErase rest p

/-- Model of `Path.write_text(content)`: create or overwrite the file. -/
def fsWrite (fs : FS) (p : AbsPath) (content : String) : FS :=
  (p, .file content) :: fsErase fs p

/-- Helper for `fsMkdirParents`: create each missing level from the root
down, `done` being the already-ensured ancestor. -/
def fsMkdirParentsAux (fs : FS) (done : AbsPath) : List String → FS
  | [] => fs
  | c :: rest =>
    let cur := done ++ [c]
    let fs' := if fsExists fs cur then fs else (cur, FsNode.dir) :: fs
    fsMkdirParentsAux fs' cur rest

/-- Model of `Path.mkdir(parents=True, ...)`: ensure the directory and all its
ancestors exist. -/
def fsMkdirParents (fs : FS) (p : AbsPath) : FS := fsMkdirParentsAux fs [] p

/-- Constant `DEVCONTAINER_JSON_TEMPLATE` (yolo.py lines 63-87); `\x7b`/`\x7d` are
the literal brace characters. -/
def DEVCONTAINER_JSON_TEMPLATE : String :=
  "\x7b\n" ++
  "    \"name\": \"PROJECT_NAME\",\n" ++
  "    \"build\": \x7b\n" ++
  "        \"dockerfile\": \"Dockerfile\"\n" ++
  "    \x7d,\n" ++
  "    \"mounts\": [\n" ++
  "        \"source=/tmp/.X11-unix,target=/tmp/.X11-unix,type=bind\",\n" ++
  "        \"source=$\x7blocalEnv:HOME\x7d/.claude,target=/home/tsb/.claude,type=bind\",\n" ++
  "        \"source=$\x7blocalEnv:HOME\x7d/.claude.json,target=/home/tsb/.claude.json,type=bind\",\n" ++
  "        \"source=$\x7blocalEnv:HOME\x7d/.zshrc,target=/home/tsb/.zshrc,type=bind,readonly\",\n" ++
  "        \"source=$\x7blocalEnv:HOME\x7d/.tmux.conf,target=/home/tsb/.tmux.conf,type=bind,readonly\",\n" ++
  "        \"source=$\x7blocalEnv:HOME\x7d/.config/tmux,target=/home/tsb/.config/tmux,type=bind,readonly\",\n" ++
  "        \"source=$\x7blocalEnv:XDG_RUNTIME_DIR\x7d/$\x7blocalEnv:WAYLAND_DISPLAY\x7d,target=/tmp/runtime-1000/$\x7blocalEnv:WAYLAND_DISPLAY\x7d,type=bind\",\n" ++
  "        \"source=$\x7blocalEnv:HOME\x7d/.config/emacs,target=/home/tsb/.config/emacs,type=bind\",\n" ++
  "        \"source=$\x7blocalEnv:HOME\x7d/.cache/emacs,target=/home/tsb/.cache/emacs,type=bind\"\n" ++
  "    ],\n" ++
  "    \"containerEnv\": \x7b\n" ++
  "        \"TERM\": \"xterm-256color\",\n" ++
  "        \"DISPLAY\": \"$\x7blocalEnv:DISPLAY\x7d\",\n" ++
  "        \"WAYLAND_DISPLAY\": \"$\x7blocalEnv:WAYLAND_DISPLAY\x7d\",\n" ++
  "        \"XDG_RUNTIME_DIR\": \"/tmp/runtime-1000\",\n" ++
  "        \"ANTHROPIC_API_KEY\": \"$\x7blocalEnv:ANTHROPIC_API_KEY\x7d\",\n" ++
  "        \"OPENAI_API_KEY\": \"$\x7blocalEnv:OPENAI_API_KEY\x7d\"\n" ++
  "    \x7d\n" ++
  "\x7d"

/-- Constant `DOCKERFILE_TEMPLATE` (yolo.py lines 89-98). -/
def DOCKERFILE_TEMPLATE : String :=
  "FROM BASE_IMAGE\n\nUSER root\nRUN apk add --no-cache nodejs npm\n" ++
  "LABEL devcontainer.metadata='[\x7b\"remoteUser\":\"tsb\",\"workspaceFolder\":\"/workspace\"\x7d]'\n" ++
  "\nWORKDIR /workspace\n\nUSER tsb\n"

/-- Substitution `DEVCONTAINER_JSON_TEMPLATE.replace('PROJECT_NAME', project_name)`. -/
def devcontainerJsonContent (project_name : String) : String :=
  ⟨pyReplace "PROJECT_NAME".toList project_name.toList DEVCONTAINER_JSON_TEMPLATE.toList⟩

/-- Substitution `DOCKERFILE_TEMPLATE.replace('BASE_IMAGE', config['base_image'])`;
`config['base_image']` is modelled as lookup with default `""` (every
config the callers build contains the key, via `DEFAULT_CONFIG`). -/
def dockerfileContent (base_image : String) : String :=
  ⟨pyReplace "BASE_IMAGE".toList base_image.toList DOCKERFILE_TEMPLATE.toList⟩

/-- Function `scaffold_devcontainer` (yolo.py lines 206-233): if
`target_dir/.devcontainer` exists return `False` touching nothing, else
create it (with parents) and write both substituted template files,
returning `True`. -/
def scaffold_devcontainer (project_name : String) (target_dir : AbsPath)
    (config : Cfg) (fs : FS) : FS × Bool :=
  let devcontainer_dir := target_dir ++ [".devcontainer"]
  if fsExists fs devcontainer_dir then
    (fs, false)
  else
    let fs1 := fsMkdirParents fs devcontainer_dir
    let fs2 := fsWrite fs1 (devcontainer_dir ++ ["devcontainer.json"])
      (devcontainerJsonContent project_name)
    let fs3 := fsWrite fs2 (devcontainer_dir ++ ["Dockerfile"])
      (dockerfileContent ((dictGet config "base_image").getD ""))
    (fs3, true)

/-- Function `sync_devcontainer` (yolo.py lines 236-259): ensure the directory
exists (`exist_ok=True`) and overwrite both files unconditionally. -/
def sync_devcontainer (project_name : String) (target_dir : AbsPath)
    (config : Cfg) (fs : FS) : FS :=
  let devcontainer_dir := target_dir ++ [".devcontainer"]
  let fs1 := fsMkdirParents fs devcontainer_dir
  let fs2 := fsWrite fs1 (devcontainer_dir ++ ["devcontainer.json"])
    (devcontainerJsonContent project_name)
  let fs3 := fsWrite fs2 (devcontainer_dir ++ ["Dockerfile"])
    (dockerfileContent ((dictGet config "base_image").getD ""))
  fs3

lemma fsLookup_fsErase_ne (fs : FS) (q p : AbsPath) (h : p ≠ q) :
    fsLookup (fsErase fs q) p = fsLookup fs p := by
  induction fs with
  | nil => rfl
  | cons e rest ih =>
    obtain ⟨r, n⟩ := e
    by_cases hr : r = q
    · subst hr
      rw [fsErase, if_pos rfl, fsLookup, if_neg (fun hh => h hh.symm), ih]
    · rw [fsErase, if_neg hr]
      by_cases hp : r = p
      · rw [fsLookup, if_pos hp, fsLookup, if_pos hp]
      · rw [fsLookup, if_neg hp, fsLookup, if_neg hp, ih]

lemma fsLookup_fsWrite_ne (fs : FS) (q p : AbsPath) (c : String) (h : p ≠ q) :
    fsLookup (fsWrite fs q c) p = fsLookup fs p := by
  rw [fsWrite, fsLookup, if_neg (fun hh => h hh.symm), fsLookup_fsErase_ne fs q p h]

lemma fsLookup_fsWrite_self (fs : FS) (q : AbsPath) (c : String) :
    fsLookup (fsWrite fs q c) q = some (.file c) := by
  rw [fsWrite, fsLookup, if_pos rfl]

lemma append_singleton_ne (l : AbsPath) (x : String) : l ++ [x] ≠ l := by
  intro h
  simpa using congrArg List.length h

lemma fsExists_fsWrite_ne (fs : FS) (q p : AbsPath) (c : String) (h : p ≠ q) :
    fsExists (fsWrite fs q c) p = fsExists fs p := by
  rw [fsExists, fsExists, fsLookup_fsWrite_ne fs q p c h]

lemma fsExists_fsMkdirParentsAux (fs : FS) (done : AbsPath) (comps : List String)
    (hne : comps ≠ []) :
    fsExists (fsMkdirParentsAux fs done comps) (done ++ comps) = true := by
  induction comps generalizing fs done with
  | nil => exact absurd rfl hne
  | cons c rest ih =>
    by_cases hrest : rest = []
    · subst hrest
      by_cases hex : fsExists fs (done ++ [c]) = true
      · simpa [fsMkdirParentsAux, hex] using hex
      · simp only [Bool.not_eq_true] at hex
        simp only [fsExists] at hex
        simp [fsMkdirParentsAux, fsExists, hex, fsLookup]
    · have harr : done ++ c :: rest = (done ++ [c]) ++ rest := by
        rw [List.append_assoc, List.singleton_append]
      rw [harr]
      simp only [fsMkdirParentsAux]
      split <;> exact ih _ _ hrest

lemma fsExists_fsMkdirParents (fs : FS) (p : AbsPath) (hne : p ≠ []) :
    fsExists (fsMkdirParents fs p) p = true := by
  have := fsExists_fsMkdirParentsAux fs [] p hne
  simpa [fsMkdirParents] using this

/-- The devcontainer directory of a target. -/
def dcDir (target_dir : AbsPath) : AbsPath := target_dir ++ [".devcontainer"]

lemma sync_devcontainer_eq (name : String) (target : AbsPath) (config : Cfg) (fs : FS) :
    sync_devcontainer name target config fs =
      fsWrite (fsWrite (fsMkdirParents fs (dcDir target))
          (dcDir target ++ ["devcontainer.json"]) (devcontainerJsonContent name))
        (dcDir target ++ ["Dockerfile"])
        (dockerfileContent ((dictGet config "base_image").getD "")) := rfl

lemma scaffold_exists (name : String) (target : AbsPath) (config : Cfg) (fs : FS)
    (h : fsExists fs (dcDir target) = true) :
    scaffold_devcontainer name target config fs = (fs, false) := by
  simp only [dcDir] at h
  rw [scaffold_devcontainer, if_pos h]

lemma scaffold_not_exists (name : String) (target : AbsPath) (config : Cfg) (fs : FS)
    (h : fsExists fs (dcDir target) = false) :
    scaffold_devcontainer name target config fs =
      (sync_devcontainer name target config fs, true) := by
  simp only [dcDir] at h
  rw [scaffold_devcontainer, if_neg (by simp [h])]
  rfl

lemma fsExists_sync_dir (name : String) (target : AbsPath) (config : Cfg) (fs : FS) :
    fsExists (sync_devcontainer name target config fs) (dcDir target) = true := by
  rw [sync_devcontainer_eq,
    fsExists_fsWrite_ne _ _ _ _ (append_singleton_ne _ _).symm,
    fsExists_fsWrite_ne _ _ _ _ (append_singleton_ne _ _).symm]
  exact fsExists_fsMkdirParents fs (dcDir target) (by simp [dcDir])

/-- C4: with `target/.devcontainer` already present, `scaffold_devcontainer`
returns `false` and leaves the filesystem untouched; consequently a second
scaffold call right after a first one changes nothing and returns `false`;
`sync_devcontainer`, by contrast, ends with both template files holding
freshly substituted content whatever the starting state. -/
theorem C4_scaffold_sync (name : String) (target : AbsPath) (config : Cfg) (fs : FS) :
    (fsExists fs (dcDir target) = true →
      scaffold_devcontainer name target config fs = (fs, false)) ∧
    scaffold_devcontainer name target config
        (scaffold_devcontainer name target config fs).1 =
      ((scaffold_devcontainer name target config fs).1, false) ∧
    fsLookup (sync_devcontainer name target config fs)
        (dcDir target ++ ["devcontainer.json"]) =
      some (.file (devcontainerJsonContent name)) ∧
    fsLookup (sync_devcontainer name target config fs)
        (dcDir target ++ ["Dockerfile"]) =
      some (.file (dockerfileContent ((dictGet config "base_image").getD ""))) := by
  have hjson_ne : dcDir target ++ ["devcontainer.json"] ≠
      dcDir target ++ ["Dockerfile"] := by
    intro h
    have := List.append_cancel_left h
    simp at this
  refine ⟨scaffold_exists name target config fs, ?_, ?_, ?_⟩
  · by_cases h : fsExists fs (dcDir target) = true
    · rw [scaffold_exists name target config fs h]
      exact scaffold_exists name target config fs h
    · rw [Bool.not_eq_true] at h
      rw [scaffold_not_exists name target config fs h]
      exact scaffold_exists name target config _
        (fsExists_sync_dir name target config fs)
  · rw [sync_devcontainer_eq,
      fsLookup_fsWrite_ne _ _ _ _ hjson_ne, fsLookup_fsWrite_self]
  · rw [sync_devcontainer_eq, fsLookup_fsWrite_self]

/-- C4 witness: instantiates `C4_scaffold_sync` where `.devcontainer`
already exists under the target, discharging the hypothesis concretely. -/
theorem C4_scaffold_sync_witness :
    scaffold_devcontainer "proj" ["home", "u", "proj"] DEFAULT_CONFIG
        [(["home", "u", "proj", ".devcontainer"], FsNode.dir)] =
      ([(["home", "u", "proj", ".devcontainer"], FsNode.dir)], false) :=
  (C4_scaffold_sync "proj" ["home", "u", "proj"] DEFAULT_CONFIG
    [(["home", "u", "proj", ".devcontainer"], FsNode.dir)]).1 (by decide)

/-- C10: on a target whose `.devcontainer` directory does not yet exist,
`sync_devcontainer` produces exactly the filesystem `scaffold_devcontainer`
produces (same two files, same substituted contents, same created
directory), and scaffold additionally reports `true`. -/
theorem C10_sync_scaffold_fresh (name : String) (target : AbsPath)
    (config : Cfg) (fs : FS)
    (h : fsExists fs (dcDir target) = false) :
    sync_devcontainer name target config fs =
      (scaffold_devcontainer name target config fs).1 ∧
    (scaffold_devcontainer name target config fs).2 = true := by
  rw [scaffold_not_exists name target config fs h]
  exact ⟨rfl, rfl⟩

/-- C10 witness: instantiates `C10_sync_scaffold_fresh` on the empty
filesystem. -/
theorem C10_sync_scaffold_fresh_witness :
    sync_devcontainer "proj" ["home", "u", "proj"] DEFAULT_CONFIG [] =
      (scaffold_devcontainer "proj" ["home", "u", "proj"] DEFAULT_CONFIG []).1 ∧
    (scaffold_devcontainer "proj" ["home", "u", "proj"] DEFAULT_CONFIG []).2 = true :=
  C10_sync_scaffold_fresh "proj" ["home", "u", "proj"] DEFAULT_CONFIG [] (by decide)

/-! ## `add_worktree_git_mount` (yolo.py lines 337-353)

```python
content = json.loads(devcontainer_json_path.read_text())
if 'mounts' not in content:
    content['mounts'] = []
git_mount = f'source={main_git_dir},target={main_git_dir},type=bind'
content['mounts'].append(git_mount)
devcontainer_json_path.write_text(json.dumps(content, indent=4))
```
JSON values are modelled by the subset the manifest uses (strings, arrays,
objects); a parsed object is its ordered field list.  The in-place
`.append` on a value that is not a list raises in Python, modelled as
`none`. -/
inductive Json
  | str (s : String)
  | arr (elems : List Json)
  | obj (fields : List (String × Json))

/-- Dict lookup on a parsed JSON object. -/
def jlookup : List (String × Json) → String → Option Json
  | [], _ => none
  | (k, v) :: rest, key => if k = key then some v else jlookup rest key

/-- Python dict assignment `d[key] = v`: overwrite in place when the key
is present, append at the end otherwise. -/
def jset : List (String × Json) → String → Json → List (String × Json)
  | [], key, v => [(key, v)]
  | (k, w) :: rest, key, v =>
    if k = key then (key, v) :: rest else (k, w) :: jset rest key v

/-- The mount entry `f'source={main_git_dir},target={main_git_dir},type=bind'`. -/
def gitMountEntry (main_git_dir : String) : String :=
  "source=" ++ main_git_dir ++ ",target=" ++ main_git_dir ++ ",type=bind"

def add_worktree_git_mount (content : List (String × Json))
    (main_git_dir : String) : Option (List (String × Json)) :=
  let content1 := if (jlookup content "mounts").isSome then content
                  else jset content "mounts" (Json.arr [])
  match jlookup content1 "mounts" with
  | some (Json.arr l) =>
    some (jset content1 "mounts"
      (Json.arr (l ++ [Json.str (gitMountEntry main_git_dir)])))
  | _ => none

lemma jlookup_jset_self (m : List (String × Json)) (k : String) (v : Json) :
    jlookup (jset m k v) k = some v := by
  induction m with
  | nil => simp [jset, jlookup]
  | cons kv rest ih =>
    obtain ⟨k', w⟩ := kv
    by_cases h : k' = k
    · simp [jset, h, jlookup]
    · simp [jset, h, jlookup, ih]

/-- C5: `add_worktree_git_mount` ensures the mount list exists and appends
exactly one entry, `source=<git>,target=<git>,type=bind`: a manifest with
no mount list ends with exactly that one entry, and a manifest whose mount
list has N entries ends with N+1, the new entry last. -/
theorem C5_add_worktree_git_mount (content : List (String × Json)) (git : String) :
    (jlookup content "mounts" = none →
      ∃ res, add_worktree_git_mount content git = some res ∧
        jlookup res "mounts" = some (.arr [.str (gitMountEntry git)])) ∧
    (∀ l, jlookup content "mounts" = some (.arr l) →
      ∃ res, add_worktree_git_mount content git = some res ∧
        jlookup res "mounts" = some (.arr (l ++ [.str (gitMountEntry git)])) ∧
        (l ++ [Json.str (gitMountEntry git)]).length = l.length + 1 ∧
        (l ++ [Json.str (gitMountEntry git)]).getLast? =
          some (.str (gitMountEntry git))) := by
  constructor
  · intro hnone
    have h1 : add_worktree_git_mount content git =
        some (jset (jset content "mounts" (Json.arr [])) "mounts"
          (Json.arr ([] ++ [Json.str (gitMountEntry git)]))) := by
      simp only [add_worktree_git_mount, hnone, Option.isSome_none,
        Bool.false_eq_true, if_false, jlookup_jset_self]
    refine ⟨_, h1, ?_⟩
    rw [jlookup_jset_self, List.nil_append]
  · intro l hl
    have h2 : add_worktree_git_mount content git =
        some (jset content "mounts"
          (Json.arr (l ++ [Json.str (gitMountEntry git)]))) := by
      simp only [add_worktree_git_mount, hl, Option.isSome_some, if_true]
    refine ⟨_, h2, ?_, by simp, by simp⟩
    exact jlookup_jset_self _ _ _

/-- C5 witness: instantiates `C5_add_worktree_git_mount` on a manifest
without a mount list and on one with two entries, discharging each
hypothesis concretely. -/
theorem C5_add_worktree_git_mount_witness :
    (∃ res, add_worktree_git_mount [("name", Json.str "proj")] "/home/u/proj/.git" =
        some res ∧
      jlookup res "mounts" =
        some (.arr [.str (gitMountEntry "/home/u/proj/.git")])) ∧
    (∃ res, add_worktree_git_mount
        [("mounts", Json.arr [Json.str "a", Json.str "b"])] "/home/u/proj/.git" =
          some res ∧
      jlookup res "mounts" =
        some (.arr ([Json.str "a", Json.str "b"] ++
          [.str (gitMountEntry "/home/u/proj/.git")])) ∧
      ([Json.str "a", Json.str "b"] ++
        [Json.str (gitMountEntry "/home/u/proj/.git")]).length =
          [Json.str "a", Json.str "b"].length + 1 ∧
      ([Json.str "a", Json.str "b"] ++
        [Json.str (gitMountEntry "/home/u/proj/.git")]).getLast? =
          some (.str (gitMountEntry "/home/u/proj/.git"))) :=
  ⟨(C5_add_worktree_git_mount [("name", Json.str "proj")] "/home/u/proj/.git").1 rfl,
   (C5_add_worktree_git_mount [("mounts", Json.arr [Json.str "a", Json.str "b"])]
      "/home/u/proj/.git").2 [Json.str "a", Json.str "b"] rfl⟩

/-! ## `list_worktrees` (yolo.py lines 392-436)

```python
worktrees = []
current_worktree = {}
for line in result.stdout.strip().split('\n'):
    if not line:
        if current_worktree:
            worktrees.append((Path(current_worktree.get('worktree', '')),
                              current_worktree.get('HEAD', '')[:7],
                              current_worktree.get('branch', '').replace('refs/heads/', '')))
            current_worktree = {}
        continue
    if line.startswith('worktree '):
        current_worktree['worktree'] = line[9:]
    elif line.startswith('HEAD '):
        current_worktree['HEAD'] = line[5:]
    elif line.startswith('branch '):
        current_worktree['branch'] = line[7:]
if current_worktree:
    worktrees.append(...)   # same record, the final one
```
The subprocess's stdout is the explicit argument (the embedding models the
`returncode == 0` path); the accumulator dict is a record of three
optional fields. -/
structure WtRec where
  worktree : Option (List Char) := none
  head : Option (List Char) := none
  branch : Option (List Char) := none

/-- Truthiness test `if current_worktree:` — the dict is nonempty. -/
def WtRec.nonempty (r : WtRec) : Bool :=
  r.worktree.isSome || r.head.isSome || r.branch.isSome

/-- The branch-ref prefix `'refs/heads/'`. -/
def refsHeads : List Char := "refs/heads/".toList

/-- The record appended for a finished block: `worktree` as-is (default
`''`), `HEAD` truncated to 7 characters, `branch` with every occurrence of
`refs/heads/` removed (Python `str.replace`). -/
def WtRec.emit (r : WtRec) : List Char × List Char × List Char :=
  (r.worktree.getD [], (r.head.getD []).take 7,
   pyReplace refsHeads [] (r.branch.getD []))

/-- One non-blank line: the `startswith` chain. -/
def processWtLine (r : WtRec) (line : List Char) : WtRec :=
  if pyStartsWith "worktree ".toList line then { r with worktree := some (line.drop 9) }
  else if pyStartsWith "HEAD ".toList line then { r with head := some (line.drop 5) }
  else if pyStartsWith "branch ".toList line then { r with branch := some (line.drop 7) }
  else r

/-- The parsing loop over the split lines, followed by the final emission
of a pending record. -/
def parseWtLines : List (List Char) → WtRec → List (List Char × List Char × List Char)
  | [], r => if r.nonempty then [r.emit] else []
  | line :: rest, r =>
    if line = [] then
      if r.nonempty then r.emit :: parseWtLines rest {} else parseWtLines rest r
    else parseWtLines rest (processWtLine r line)

/-- Function `list_worktrees`, as a function of the porcelain stdout text. -/
def list_worktrees (stdout : String) : List (String × String × String) :=
  (parseWtLines (pySplitOnChar '\n' (pyStrip stdout.toList)) {}).map
    (fun t => (⟨t.1⟩, ⟨t.2.1⟩, ⟨t.2.2⟩))

/-- The first `n` characters of a string. -/
def takeStr (n : Nat) (s : String) : String := ⟨s.toList.take n⟩

/-- The three lines of one porcelain worktree block for record
`(path, head, branch)`: `worktree <path>`, `HEAD <head>`,
`branch refs/heads/<branch>`. -/
def blockLines (b : String × String × String) : List (List Char) :=
  ["worktree ".toList ++ b.1.toList,
   "HEAD ".toList ++ b.2.1.toList,
   "branch ".toList ++ (refsHeads ++ b.2.2.toList)]

/-- A porcelain listing: blocks separated by single blank lines, with no
trailing blank line after the final block. -/
def porcelainLines : List (String × String × String) → List (List Char)
  | [] => []
  | [b] => blockLines b
  | b :: b2 :: rest => blockLines b ++ [[]] ++ porcelainLines (b2 :: rest)

/-- The accumulator after one full block has been processed. -/
def blockRec (b : String × String × String) : WtRec :=
  { worktree := some b.1.toList, head := some b.2.1.toList,
    branch := some (refsHeads ++ b.2.2.toList) }

lemma pyStartsWith_append (pre l : List Char) :
    pyStartsWith pre (pre ++ l) = true := by
  induction pre with
  | nil => rfl
  | cons c cs ih => simp [pyStartsWith, ih]

lemma pyStartsWith_iff (pre l : List Char) :
    pyStartsWith pre l = true ↔ pre <+: l := by
  induction pre generalizing l with
  | nil => simp [pyStartsWith]
  | cons c cs ih =>
    cases l with
    | nil => simp [pyStartsWith]
    | cons d ds => simp [pyStartsWith, List.cons_prefix_cons, ih]

lemma pyReplace_no_occurrence (pat l : List Char) (h : ¬ pat <:+: l) :
    pyReplace pat [] l = l := by
  induction l with
  | nil => rw [pyReplace]
  | cons c rest ih =>
    rw [pyReplace]
    rw [dif_neg ?_]
    · rw [ih (fun hh => h (List.infix_cons hh))]
    · rintro ⟨-, hsw⟩
      exact h ((pyStartsWith_iff pat (c :: rest)).mp hsw).isInfix

lemma pyReplace_strip_leading (pat l : List Char) (hpat : pat ≠ [])
    (h : ¬ pat <:+: l) : pyReplace pat [] (pat ++ l) = l := by
  cases hp : pat with
  | nil => exact absurd hp hpat
  | cons p ps =>
    subst hp
    rw [List.cons_append, pyReplace,
      dif_pos ⟨List.cons_ne_nil p ps, by rw [← List.cons_append]; exact pyStartsWith_append _ l⟩]
    rw [List.nil_append, ← List.cons_append, List.drop_left]
    exact pyReplace_no_occurrence _ _ h

lemma processWtLine_worktree (r : WtRec) (p : List Char) :
    processWtLine r ("worktree ".toList ++ p) = { r with worktree := some p } := by
  rw [processWtLine, if_pos (pyStartsWith_append _ _)]
  have hd := List.drop_left "worktree ".toList p
  rw [show ("worktree ".toList).length = 9 from rfl] at hd
  rw [hd]

lemma processWtLine_head (r : WtRec) (h : List Char) :
    processWtLine r ("HEAD ".toList ++ h) = { r with head := some h } := by
  rw [processWtLine,
    if_neg (by rw [show pyStartsWith "worktree ".toList ("HEAD ".toList ++ h) = false from rfl]; simp),
    if_pos (pyStartsWith_append _ _)]
  have hd := List.drop_left "HEAD ".toList h
  rw [show ("HEAD ".toList).length = 5 from rfl] at hd
  rw [hd]

lemma processWtLine_branch (r : WtRec) (br : List Char) :
    processWtLine r ("branch ".toList ++ br) = { r with branch := some br } := by
  rw [processWtLine,
    if_neg (by rw [show pyStartsWith "worktree ".toList ("branch ".toList ++ br) = false from rfl]; simp),
    if_neg (by rw [show pyStartsWith "HEAD ".toList ("branch ".toList ++ br) = false from rfl]; simp),
    if_pos (pyStartsWith_append _ _)]
  have hd := List.drop_left "branch ".toList br
  rw [show ("branch ".toList).length = 7 from rfl] at hd
  rw [hd]

lemma parseWtLines_cons_nonblank (line : List Char) (ls : List (List Char))
    (r : WtRec) (h : line ≠ []) :
    parseWtLines (line :: ls) r = parseWtLines ls (processWtLine r line) := by
  rw [parseWtLines, if_neg h]

lemma parseWtLines_blank_nonempty (ls : List (List Char)) (r : WtRec)
    (h : r.nonempty = true) :
    parseWtLines ([] :: ls) r = r.emit :: parseWtLines ls {} := by
  rw [parseWtLines, if_pos rfl, if_pos h]

lemma blockRec_nonempty (b : String × String × String) :
    (blockRec b).nonempty = true := rfl

lemma parseWtLines_block (b : String × String × String) (ls : List (List Char)) :
    parseWtLines (blockLines b ++ ls) {} = parseWtLines ls (blockRec b) := by
  show parseWtLines (("worktree ".toList ++ b.1.toList) ::
    ("HEAD ".toList ++ b.2.1.toList) ::
    ("branch ".toList ++ (refsHeads ++ b.2.2.toList)) :: ls) {} = _
  rw [parseWtLines_cons_nonblank _ _ _ (by exact List.cons_ne_nil _ _),
    processWtLine_worktree,
    parseWtLines_cons_nonblank _ _ _ (by exact List.cons_ne_nil _ _),
    processWtLine_head,
    parseWtLines_cons_nonblank _ _ _ (by exact List.cons_ne_nil _ _),
    processWtLine_branch]
  rfl

lemma emit_blockRec (b : String × String × String)
    (hb : ¬ refsHeads <:+: b.2.2.toList) :
    (blockRec b).emit = (b.1.toList, b.2.1.toList.take 7, b.2.2.toList) := by
  rw [WtRec.emit, blockRec]
  simp only [Option.getD_some]
  rw [pyReplace_strip_leading refsHeads _ (by rw [show refsHeads = 'r' :: "efs/heads/".toList from rfl]; exact List.cons_ne_nil _ _) hb]

lemma parseWtLines_porcelain (blocks : List (String × String × String))
    (hb : ∀ b ∈ blocks, ¬ refsHeads <:+: b.2.2.toList) (hne : blocks ≠ []) :
    parseWtLines (porcelainLines blocks) {} =
      blocks.map (fun b => (b.1.toList, b.2.1.toList.take 7, b.2.2.toList)) := by
  induction blocks with
  | nil => exact absurd rfl hne
  | cons b rest ih =>
    cases rest with
    | nil =>
      rw [porcelainLines, ← List.append_nil (blockLines b), parseWtLines_block,
        parseWtLines, if_pos (blockRec_nonempty b),
        emit_blockRec b (hb b (List.mem_cons_self _ _))]
      rfl
    | cons b2 rest2 =>
      have hih := ih (fun b' hb' => hb b' (List.mem_cons_of_mem _ hb'))
        (List.cons_ne_nil _ _)
      rw [porcelainLines, List.append_assoc, parseWtLines_block,
        show ([[]] : List (List Char)) ++ porcelainLines (b2 :: rest2) =
          [] :: porcelainLines (b2 :: rest2) from rfl,
        parseWtLines_blank_nonempty _ _ (blockRec_nonempty b),
        emit_blockRec b (hb b (List.mem_cons_self _ _)), hih]
      rfl

/-- C1: on every porcelain worktree-listing input — every stdout whose
stripped, newline-split lines form blank-line-separated blocks
`worktree <path> / HEAD <head> / branch refs/heads/<branch>` with no
trailing blank line — `list_worktrees` returns one `(path, commit,
branch)` record per block, the commit truncated to the first 7 characters
of the HEAD field and the branch with the `refs/heads/` prefix stripped;
in particular the final record is emitted although no blank line follows
it.  (The hypothesis that `refs/heads/` does not recur inside a branch
name matches real branch refs; the code removes every occurrence.) -/
theorem C1_list_worktrees (blocks : List (String × String × String))
    (stdout : String) (hne : blocks ≠ [])
    (hb : ∀ b ∈ blocks, ¬ refsHeads <:+: b.2.2.toList)
    (hs : pySplitOnChar '\n' (pyStrip stdout.toList) = porcelainLines blocks) :
    list_worktrees stdout = blocks.map (fun b => (b.1, takeStr 7 b.2.1, b.2.2)) := by
  rw [list_worktrees, hs, parseWtLines_porcelain blocks hb hne, List.map_map]
  rfl

/-- C1 witness: instantiates `C1_list_worktrees` on a concrete two-block
porcelain listing whose final block is not followed by a blank line. -/
theorem C1_list_worktrees_witness :
    list_worktrees ("worktree /home/u/proj\nHEAD 0123456789abcdef\n" ++
        "branch refs/heads/main\n\nworktree /home/u/proj-worktrees/wt\n" ++
        "HEAD fedcba9876543210\nbranch refs/heads/wt\n") =
      [("/home/u/proj", "0123456", "main"),
       ("/home/u/proj-worktrees/wt", "fedcba9", "wt")] := by
  have h := C1_list_worktrees
    [("/home/u/proj", "0123456789abcdef", "main"),
     ("/home/u/proj-worktrees/wt", "fedcba9876543210", "wt")]
    ("worktree /home/u/proj\nHEAD 0123456789abcdef\n" ++
      "branch refs/heads/main\n\nworktree /home/u/proj-worktrees/wt\n" ++
      "HEAD fedcba9876543210\nbranch refs/heads/wt\n")
    (List.cons_ne_nil _ _) (by decide) (by decide)
  simpa using h

end Yolo
